import Mathlib

/-!
Verification development for the plexy preference-driven track selection
engine.  The definitions below are a shallow embedding of `plexy/api.py`,
`plexy/utils.py` and the `title_re` regular expression; stateful code
(`VideoPart.save_preferences` and the mutation calls it issues) is embedded
as explicit state passing on a `VideoPart` value, and code paths that raise
a Python exception are embedded as `Except Unit`.
-/

namespace Plexy

/-- A babelfish `Language` value: equality in babelfish compares the alpha3
code, the country and the script (`Language.__eq__`). -/
structure Language where
  alpha3 : String
  country : Option String
  script : Option String
deriving DecidableEq, Repr

/-- Python truthiness of a babelfish `Language`: `Language.__bool__` returns
`self.alpha3 != 'und'` (the undetermined language is falsy). -/
def Language.truthy (l : Language) : Bool :=
  l.alpha3 ≠ "und"

/-- The undetermined language sentinel `babelfish.Language('und')`. -/
def lang_und : Language := ⟨"und", none, none⟩

/-- `AudioCodec` enum from `api.py`. -/
inductive AudioCodec
  | DTS | AAC | DOLBY_DIGITAL | DOLBY_DIGITAL_PLUS | DOLBY_DIGITAL_TRUEHD
  | FLAC | MP2 | MP3 | VORBIS | PCM
deriving DecidableEq, Repr

/-- `SubtitleCodec` enum from `api.py`. -/
inductive SubtitleCodec
  | SRT | PGS | VOBSUB | ASS | MOV | CC | DVB
deriving DecidableEq, Repr

/-- A stream's codec is either an audio codec or a subtitle codec
(`Stream.codec` returns an `AudioCodec` for audio streams and a
`SubtitleCodec` for subtitle streams, or `None`). -/
inductive Codec
  | audio (c : AudioCodec)
  | subtitle (c : SubtitleCodec)
deriving DecidableEq, Repr

/-- `WatchingPreference` enum from `api.py`. -/
inductive WatchingPreference
  | ORIGINAL | DUBBED
deriving DecidableEq, Repr

/-- `LibraryType` enum from `api.py`. -/
inductive LibraryType
  | MOVIE | EPISODE
deriving DecidableEq, Repr

/-- The string value of a `LibraryType` member (`lib_type.value`). -/
def LibraryType.value : LibraryType → String
  | .MOVIE => "movie"
  | .EPISODE => "episode"

/-- The immutable attributes of a classified `plexy` `Stream`: the resolved
language, the role flags, the original stream index, the codec and the
container `default` flag.  The mutable `selected` flag is kept separately in
`VideoPart` (it lives on the remote track and is what the mutation calls
change). -/
structure Stream where
  language : Language
  commentary : Bool
  closed_caption : Bool
  hearing_impaired : Bool
  index : Int
  codec : Option Codec
  default : Bool
deriving DecidableEq, Repr

/-- The role-flag ladder of `language_cmp` for two streams of identical
language: `commentary`, then `closed_caption`, then `hearing_impaired`; a
stream lacking a flag the other has ranks first, full tie yields `0`
(`api.py` lines 371-379). -/
def flag_cmp (a b : Stream) : Int :=
  if !a.commentary && b.commentary then -1
  else if a.commentary && !b.commentary then 1
  else if !a.closed_caption && b.closed_caption then -1
  else if a.closed_caption && !b.closed_caption then 1
  else if !a.hearing_impaired && b.hearing_impaired then -1
  else if a.hearing_impaired && !b.hearing_impaired then 1
  else 0

/-- The final fallback of `language_cmp`:
`(a.index > b.index) - (a.index < b.index)` (`api.py` line 401). -/
def idx_cmp (a b : Stream) : Int :=
  if a.index > b.index then 1
  else if a.index < b.index then -1
  else 0

/-- `api.py` line 398 evaluates `b_language == desired_language.country`,
comparing a babelfish `Language` against a `Country` (or `None`).
babelfish's `Language.__eq__` answers `False` for any operand that is not a
`Language`, so this test never succeeds regardless of its arguments. -/
def language_eq_country (_l : Language) (_c : Option String) : Bool :=
  false

/-- The comparator returned by `VideoPart.__get_lang_cmp` (`api.py` lines
364-403).  `desired` is `none` when `desired_language` is Python `None`;
`Language == None` is `False` in babelfish, but the branches that read
`desired_language.alpha3` / `.script` / `.country` then raise an
`AttributeError`, embedded as `Except.error ()`. -/
def language_cmp (desired : Option Language) (a b : Stream) :
    Except Unit Int :=
  if a.language = b.language then .ok (flag_cmp a b)
  else if desired = some a.language then .ok (-1)
  else if desired = some b.language then .ok 1
  else
    match desired with
    | none => .error ()
    | some d =>
      .ok (if a.language.alpha3 ≠ b.language.alpha3 then
             if a.language.alpha3 = d.alpha3 then -1
             else if b.language.alpha3 = d.alpha3 then 1
             else idx_cmp a b
           else if a.language.country = b.language.country then
             if a.language.script = d.script then -1
             else if b.language.script = d.script then 1
             else idx_cmp a b
           else if a.language.country = d.country then -1
           else if language_eq_country b.language d.country then 1
           else idx_cmp a b)

/-- Stable insertion into a sorted list under a possibly failing three-way
comparator: the inserted element (earlier in the original list) goes before
the first element it compares `≤ 0` against, matching the placement a stable
sort gives it. -/
def insertE {α : Type} (cmp : α → α → Except Unit Int) (x : α) :
    List α → Except Unit (List α)
  | [] => .ok [x]
  | y :: ys =>
    match cmp x y with
    | .error e => .error e
    | .ok c =>
      if c ≤ 0 then .ok (x :: y :: ys)
      else
        match insertE cmp x ys with
        | .error e => .error e
        | .ok zs => .ok (y :: zs)

/-- Stable sort under a possibly failing three-way comparator, the embedding
of Python's `sorted(candidates, key=functools.cmp_to_key(cmp))`: for a
comparator that is a total preorder this is the unique stable sort, and an
exception raised by the comparator aborts the whole sort. -/
def sortE {α : Type} (cmp : α → α → Except Unit Int) :
    List α → Except Unit (List α)
  | [] => .ok []
  | x :: xs =>
    match sortE cmp xs with
    | .error e => .error e
    | .ok ys => insertE cmp x ys

instance {ε α : Type} [DecidableEq ε] [DecidableEq α] :
    DecidableEq (Except ε α) := fun
  | .error a, .error b =>
    match decEq a b with
    | isTrue h => isTrue (by rw [h])
    | isFalse h => isFalse (fun hh => h (Except.error.inj hh))
  | .error _, .ok _ => isFalse (fun hh => Except.noConfusion hh)
  | .ok _, .error _ => isFalse (fun hh => Except.noConfusion hh)
  | .ok a, .ok b =>
    match decEq a b with
    | isTrue h => isTrue (by rw [h])
    | isFalse h => isFalse (fun hh => h (Except.ok.inj hh))

theorem insertE_ok {α : Type} (cmp : α → α → Except Unit Int)
    (h : ∀ a b, ∃ c, cmp a b = .ok c) (x : α) :
    ∀ l : List α, ∃ r, insertE cmp x l = .ok r := by
  intro l
  induction l with
  | nil => exact ⟨[x], rfl⟩
  | cons y ys ih =>
    obtain ⟨c, hc⟩ := h x y
    obtain ⟨r, hr⟩ := ih
    by_cases hle : c ≤ 0
    · exact ⟨x :: y :: ys, by simp [insertE, hc, hle]⟩
    · exact ⟨y :: r, by simp [insertE, hc, hle, hr]⟩

theorem sortE_ok {α : Type} (cmp : α → α → Except Unit Int)
    (h : ∀ a b, ∃ c, cmp a b = .ok c) :
    ∀ l : List α, ∃ r, sortE cmp l = .ok r := by
  intro l
  induction l with
  | nil => exact ⟨[], rfl⟩
  | cons x xs ih =>
    obtain ⟨r, hr⟩ := ih
    obtain ⟨r2, hr2⟩ := insertE_ok cmp h x r
    exact ⟨r2, by simp [sortE, hr, hr2]⟩

theorem insertE_mem {α : Type} (cmp : α → α → Except Unit Int) (x : α)
    (l r : List α) (h : insertE cmp x l = .ok r) :
    ∀ z ∈ r, z = x ∨ z ∈ l := by
  induction l generalizing r with
  | nil =>
    simp only [insertE] at h
    cases h
    intro z hz
    simp at hz
    exact Or.inl hz
  | cons y ys ih =>
    simp only [insertE] at h
    cases hc : cmp x y with
    | error e => simp only [hc] at h; exact Except.noConfusion h
    | ok c =>
      simp only [hc] at h
      by_cases hle : c ≤ 0
      · rw [if_pos hle] at h
        cases h
        intro z hz
        rcases List.mem_cons.mp hz with hz | hz
        · exact Or.inl hz
        · exact Or.inr hz
      · rw [if_neg hle] at h
        cases hi : insertE cmp x ys with
        | error e => simp only [hi] at h; exact Except.noConfusion h
        | ok zs =>
          simp only [hi, Except.ok.injEq] at h
          subst h
          intro z hz
          rcases List.mem_cons.mp hz with hz | hz
          · exact Or.inr (by simp [hz])
          · rcases ih zs hi z hz with h1 | h1
            · exact Or.inl h1
            · exact Or.inr (List.mem_cons_of_mem _ h1)

theorem sortE_mem {α : Type} (cmp : α → α → Except Unit Int)
    (l r : List α) (h : sortE cmp l = .ok r) :
    ∀ z ∈ r, z ∈ l := by
  induction l generalizing r with
  | nil =>
    simp only [sortE] at h
    cases h
    intro z hz
    cases hz
  | cons x xs ih =>
    simp only [sortE] at h
    cases hs : sortE cmp xs with
    | error e => simp only [hs] at h; exact Except.noConfusion h
    | ok ys =>
      simp only [hs] at h
      intro z hz
      rcases insertE_mem cmp x ys r h z hz with h1 | h1
      · simp [h1]
      · exact List.mem_cons_of_mem _ (ih ys hs z h1)

/-- `Preferences` (`api.py` 205-225).  The Python codec sets are embedded as
lists; only membership and emptiness are ever used. -/
structure Preferences where
  watching_preference : WatchingPreference
  language : Option Language
  audio_codecs : List AudioCodec
  excluded_audio_codecs : List AudioCodec
  subtitle_codecs : List SubtitleCodec
  excluded_subtitle_codecs : List SubtitleCodec
  keep_selected_audio : Bool
  keep_selected_subtitle : Bool
  force_subtitles : Bool
deriving DecidableEq, Repr

/-- Python `stream.codec in audio_codec_set`: `None` and subtitle codecs are
never members of a set of `AudioCodec` enum members. -/
def codec_mem_audio (c : Option Codec) (s : List AudioCodec) : Bool :=
  match c with
  | some (.audio a) => s.contains a
  | _ => false

/-- Python `stream.codec in subtitle_codec_set`. -/
def codec_mem_subtitle (c : Option Codec) (s : List SubtitleCodec) : Bool :=
  match c with
  | some (.subtitle a) => s.contains a
  | _ => false

/-- The codec filter of `choose_audio_track` (`api.py` 450-452): allow-list
(empty = allow all) minus exclude-list. -/
def audio_codec_ok (prefs : Preferences) (m : Stream) : Bool :=
  (prefs.audio_codecs.isEmpty || codec_mem_audio m.codec prefs.audio_codecs)
    && !codec_mem_audio m.codec prefs.excluded_audio_codecs

/-- The codec filter of `choose_subtitle_track` (`api.py` 460-462). -/
def subtitle_codec_ok (prefs : Preferences) (m : Stream) : Bool :=
  (prefs.subtitle_codecs.isEmpty
      || codec_mem_subtitle m.codec prefs.subtitle_codecs)
    && !codec_mem_subtitle m.codec prefs.excluded_subtitle_codecs

/-- A `VideoPart` (`api.py` 355-362): its classified video, audio and
subtitle streams.  Audio and subtitle streams carry their remote `selected`
flag; the position of a stream in its list stands for Python object
identity. -/
structure VideoPart where
  video_streams : List Stream
  audio_streams : List (Stream × Bool)
  subtitle_streams : List (Stream × Bool)
deriving DecidableEq, Repr

/-- The stream attributes of a part's audio streams. -/
def audio_metas (st : VideoPart) : List Stream :=
  st.audio_streams.map Prod.fst

/-- The stream attributes of a part's subtitle streams. -/
def subtitle_metas (st : VideoPart) : List Stream :=
  st.subtitle_streams.map Prod.fst

/-- Position of the first stream whose `selected` flag is set: the embedding
of `[stream for stream in streams if stream.selected][0]`
(`api.py` 410-412 and 428-431). -/
def sel_idx : List (Stream × Bool) → Option Nat
  | [] => none
  | (_, b) :: rest => if b then some 0 else (sel_idx rest).map (· + 1)

/-- `VideoPart.selected_audio` as a position. -/
def selected_audio (st : VideoPart) : Option Nat :=
  sel_idx st.audio_streams

/-- `VideoPart.selected_subtitle` as a position. -/
def selected_subtitle (st : VideoPart) : Option Nat :=
  sel_idx st.subtitle_streams

/-- The stream attributes found at a position of the audio stream list. -/
def audio_meta (st : VideoPart) (p : Nat) : Option Stream :=
  (audio_metas st).get? p

/-- Python `sorted(streams, key=lambda x: x.default, reverse=True)`: a
stable sort on a boolean key, i.e. the default-flagged streams in original
order followed by the remaining streams in original order. -/
def sort_default_first (l : List Stream) : List Stream :=
  l.filter (fun m => m.default) ++ l.filter (fun m => !m.default)

/-- `VideoPart.original_language` (`api.py` 414-426).  The comprehension
filter `if stream.language` keeps only streams whose language is truthy,
i.e. not the undetermined language. -/
def original_language (st : VideoPart) : Option Language :=
  match ((sort_default_first st.video_streams).filter
      (fun m => m.language.truthy)).map Stream.language with
  | l :: _ => some l
  | [] =>
    match ((sort_default_first (audio_metas st)).filter
        (fun m => m.language.truthy)).map Stream.language with
    | l :: _ => some l
    | [] => none

/-- The target language computed by `choose_audio_track`
(`api.py` 446-447). -/
def target_language (prefs : Preferences) (st : VideoPart) : Option Language :=
  if prefs.watching_preference = .DUBBED then prefs.language
  else original_language st

/-- Codec-filtered candidate streams paired with their position in the
part's stream list (the list comprehensions of `api.py` 450-452 and
460-462, keeping track of object identity). -/
def candidates_aux (ok : Stream → Bool) : Nat → List Stream → List (Nat × Stream)
  | _, [] => []
  | i, m :: rest =>
    if ok m then (i, m) :: candidates_aux ok (i + 1) rest
    else candidates_aux ok (i + 1) rest

/-- The audio candidates surviving the codec filter. -/
def audio_candidates (prefs : Preferences) (st : VideoPart) : List (Nat × Stream) :=
  candidates_aux (audio_codec_ok prefs) 0 (audio_metas st)

/-- The subtitle candidates surviving the codec filter. -/
def subtitle_candidates (prefs : Preferences) (st : VideoPart) : List (Nat × Stream) :=
  candidates_aux (subtitle_codec_ok prefs) 0 (subtitle_metas st)

/-- `VideoPart.choose_audio_track` (`api.py` 442-455): keep the current
selection when `keep_selected_audio`, otherwise sort the codec-filtered
candidates with the language comparator for the target language and pick
rank 0, falling back to the currently selected audio when no candidate
survives. -/
def choose_audio_track (prefs : Preferences) (st : VideoPart) :
    Except Unit (Option Nat) :=
  if prefs.keep_selected_audio then .ok (selected_audio st)
  else
    match sortE (fun a b => language_cmp (target_language prefs st) a.2 b.2)
        (audio_candidates prefs st) with
    | .error e => .error e
    | .ok [] => .ok (selected_audio st)
    | .ok (x :: _) => .ok (some x.1)

/-- `VideoPart.choose_subtitle_track` (`api.py` 457-465): rank the
codec-filtered subtitle candidates against `preferences.language` and pick
rank 0, falling back to the currently selected subtitle. -/
def choose_subtitle_track (prefs : Preferences) (st : VideoPart) :
    Except Unit (Option Nat) :=
  match sortE (fun a b => language_cmp prefs.language a.2 b.2)
      (subtitle_candidates prefs st) with
  | .error e => .error e
  | .ok [] => .ok (selected_subtitle st)
  | .ok (x :: _) => .ok (some x.1)

/-- All `selected` flags cleared: the server-side effect of
`part.resetDefaultSubtitleStream()`. -/
def clear_selected : List (Stream × Bool) → List (Stream × Bool)
  | [] => []
  | (m, _) :: rest => (m, false) :: clear_selected rest

/-- Exactly the stream at position `p` selected: the server-side effect of
`part.setDefaultAudioStream` / `part.setDefaultSubtitleStream`. -/
def select_only : Nat → List (Stream × Bool) → List (Stream × Bool)
  | _, [] => []
  | 0, (m, _) :: rest => (m, true) :: clear_selected rest
  | p + 1, (m, _) :: rest => (m, false) :: select_only p rest

/-- `VideoPart.select_audio` (`api.py` 433-434) as a state update. -/
def select_audio (st : VideoPart) (p : Nat) : VideoPart :=
  { st with audio_streams := select_only p st.audio_streams }

/-- `VideoPart.select_subtitle` (`api.py` 439-440) as a state update. -/
def select_subtitle (st : VideoPart) (p : Nat) : VideoPart :=
  { st with subtitle_streams := select_only p st.subtitle_streams }

/-- `VideoPart.unselect_subtitle` (`api.py` 436-437) as a state update. -/
def unselect_subtitle (st : VideoPart) : VideoPart :=
  { st with subtitle_streams := clear_selected st.subtitle_streams }

/-- `Change` (`api.py` 506-518); the stream fields are positions in the
part's stream lists, standing for the Python `Stream` objects. -/
structure Change where
  previous_audio : Option Nat
  previous_subtitle : Option Nat
  audio : Option Nat
  subtitle : Option Nat
deriving DecidableEq, Repr

/-- The audio half of `VideoPart.save_preferences` (`api.py` 468-477): when
the chosen audio differs from the previous selection the mutation is
issued.  In that branch line 473 evaluates `selected_audio.language` for
logging, which raises when the chosen stream is `None`; the path is
embedded as `.error ()` (and is provably unreachable). -/
def audio_phase (prefs : Preferences) (st : VideoPart) :
    Except Unit (Option Nat × VideoPart) :=
  match choose_audio_track prefs st with
  | .error e => .error e
  | .ok selA =>
    if selA = selected_audio st then .ok (selA, st)
    else
      match selA with
      | none => .error ()
      | some p => .ok (some p, select_audio st p)

/-- The subtitle half of `VideoPart.save_preferences` (`api.py` 479-494):
keep the current subtitle when `keep_selected_subtitle` and one is
selected; else pick a subtitle when the chosen audio's language differs
from the preferred language or subtitles are forced (line 486 raises when
the chosen subtitle is `None` and differs from the previous one, an
unreachable path embedded as `.error ()`); else clear a previously selected
subtitle. -/
def subtitle_phase (prefs : Preferences) (selALang : Option Language)
    (prevS : Option Nat) (st : VideoPart) :
    Except Unit (Option Nat × VideoPart) :=
  if prefs.keep_selected_subtitle && prevS.isSome then .ok (prevS, st)
  else if selALang ≠ prefs.language ∨ prefs.force_subtitles then
    match choose_subtitle_track prefs st with
    | .error e => .error e
    | .ok selS =>
      if selS = prevS then .ok (selS, st)
      else
        match selS with
        | none => .error ()
        | some p => .ok (some p, select_subtitle st p)
  else if prevS.isSome then .ok (none, unselect_subtitle st)
  else .ok (prevS, st)

/-- `VideoPart.save_preferences` (`api.py` 467-497): pick audio and
subtitle, issue the mutations for the selections that changed, and return a
`Change` exactly when something differs from the pre-run selection. -/
def save_preferences (prefs : Preferences) (st : VideoPart) :
    Except Unit (VideoPart × Option Change) :=
  let prevA := selected_audio st
  let prevS := selected_subtitle st
  match audio_phase prefs st with
  | .error e => .error e
  | .ok (selA, st1) =>
    let selALang := selA.bind (fun p => (audio_meta st p).map Stream.language)
    match subtitle_phase prefs selALang prevS st1 with
    | .error e => .error e
    | .ok (selS, st2) =>
      .ok (st2, if selA ≠ prevA ∨ selS ≠ prevS then
                  some ⟨prevA, prevS, selA, selS⟩
                else none)

theorem map_fst_clear_selected (l : List (Stream × Bool)) :
    (clear_selected l).map Prod.fst = l.map Prod.fst := by
  induction l with
  | nil => rfl
  | cons x xs ih => simp [clear_selected, ih]

theorem map_fst_select_only (p : Nat) (l : List (Stream × Bool)) :
    (select_only p l).map Prod.fst = l.map Prod.fst := by
  induction l generalizing p with
  | nil => cases p <;> rfl
  | cons x xs ih =>
    cases p with
    | zero => simp [select_only, map_fst_clear_selected]
    | succ q => simp [select_only, ih]

theorem sel_idx_clear_selected (l : List (Stream × Bool)) :
    sel_idx (clear_selected l) = none := by
  induction l with
  | nil => rfl
  | cons x xs ih => simp [clear_selected, sel_idx, ih]

theorem sel_idx_select_only (p : Nat) (l : List (Stream × Bool))
    (hp : p < l.length) : sel_idx (select_only p l) = some p := by
  induction l generalizing p with
  | nil => cases hp
  | cons x xs ih =>
    cases p with
    | zero => simp [select_only, sel_idx]
    | succ q =>
      have hq : q < xs.length := Nat.lt_of_succ_lt_succ hp
      simp [select_only, sel_idx, ih q hq]

theorem candidates_aux_mem_lt (ok : Stream → Bool) (i : Nat)
    (l : List Stream) (p : Nat) (m : Stream)
    (h : (p, m) ∈ candidates_aux ok i l) : p < i + l.length := by
  induction l generalizing i with
  | nil => cases h
  | cons x xs ih =>
    simp only [candidates_aux] at h
    by_cases hx : ok x
    · rw [if_pos hx] at h
      rcases List.mem_cons.mp h with h1 | h1
      · have hpi : p = i := by cases h1; rfl
        subst hpi
        simp only [List.length_cons]
        omega
      · have := ih (i + 1) h1
        simp only [List.length_cons]
        omega
    · rw [if_neg hx] at h
      have := ih (i + 1) h
      simp only [List.length_cons]
      omega

theorem original_language_ext (st st2 : VideoPart)
    (hv : st2.video_streams = st.video_streams)
    (hm : audio_metas st2 = audio_metas st) :
    original_language st2 = original_language st := by
  unfold original_language
  rw [hv, hm]

theorem target_language_ext (prefs : Preferences) (st st2 : VideoPart)
    (hv : st2.video_streams = st.video_streams)
    (hm : audio_metas st2 = audio_metas st) :
    target_language prefs st2 = target_language prefs st := by
  unfold target_language
  rw [original_language_ext st st2 hv hm]

theorem audio_candidates_ext (prefs : Preferences) (st st2 : VideoPart)
    (hm : audio_metas st2 = audio_metas st) :
    audio_candidates prefs st2 = audio_candidates prefs st := by
  unfold audio_candidates
  rw [hm]

theorem subtitle_candidates_ext (prefs : Preferences) (st st2 : VideoPart)
    (hm : subtitle_metas st2 = subtitle_metas st) :
    subtitle_candidates prefs st2 = subtitle_candidates prefs st := by
  unfold subtitle_candidates
  rw [hm]

theorem choose_audio_bound (prefs : Preferences) (st : VideoPart) (p : Nat)
    (h : choose_audio_track prefs st = .ok (some p))
    (hne : some p ≠ selected_audio st) :
    p < st.audio_streams.length := by
  unfold choose_audio_track at h
  by_cases hk : prefs.keep_selected_audio
  · rw [if_pos hk] at h
    exact absurd (Except.ok.inj h).symm hne
  · rw [if_neg hk] at h
    cases hs : sortE (fun a b => language_cmp (target_language prefs st) a.2 b.2)
        (audio_candidates prefs st) with
    | error e => rw [hs] at h; exact Except.noConfusion h
    | ok l =>
      rw [hs] at h
      cases l with
      | nil =>
        exact absurd (Except.ok.inj h).symm hne
      | cons x xs =>
        have hx : x.1 = p := Option.some.inj (Except.ok.inj h)
        have hmem := sortE_mem _ _ _ hs x (List.mem_cons_self x xs)
        have hlt := candidates_aux_mem_lt (audio_codec_ok prefs) 0
          (audio_metas st) x.1 x.2 (by simpa [audio_candidates] using hmem)
        have hlen : (audio_metas st).length = st.audio_streams.length := by
          simp [audio_metas]
        omega

theorem choose_subtitle_bound (prefs : Preferences) (st : VideoPart) (p : Nat)
    (h : choose_subtitle_track prefs st = .ok (some p))
    (hne : some p ≠ selected_subtitle st) :
    p < st.subtitle_streams.length := by
  unfold choose_subtitle_track at h
  cases hs : sortE (fun a b => language_cmp prefs.language a.2 b.2)
      (subtitle_candidates prefs st) with
  | error e => rw [hs] at h; exact Except.noConfusion h
  | ok l =>
    rw [hs] at h
    cases l with
    | nil =>
      exact absurd (Except.ok.inj h).symm hne
    | cons x xs =>
      have hx : x.1 = p := Option.some.inj (Except.ok.inj h)
      have hmem := sortE_mem _ _ _ hs x (List.mem_cons_self x xs)
      have hlt := candidates_aux_mem_lt (subtitle_codec_ok prefs) 0
        (subtitle_metas st) x.1 x.2 (by simpa [subtitle_candidates] using hmem)
      have hlen : (subtitle_metas st).length = st.subtitle_streams.length := by
        simp [subtitle_metas]
      omega

theorem audio_phase_props (prefs : Preferences) (st : VideoPart)
    (selA : Option Nat) (st1 : VideoPart)
    (h : audio_phase prefs st = .ok (selA, st1)) :
    choose_audio_track prefs st = .ok selA ∧
    st1.video_streams = st.video_streams ∧
    audio_metas st1 = audio_metas st ∧
    st1.subtitle_streams = st.subtitle_streams ∧
    selected_audio st1 = selA := by
  unfold audio_phase at h
  cases hc : choose_audio_track prefs st with
  | error e => rw [hc] at h; exact Except.noConfusion h
  | ok sa =>
    simp only [hc] at h
    by_cases he : sa = selected_audio st
    · rw [if_pos he] at h
      have h1 : sa = selA ∧ st = st1 := by
        cases h; exact ⟨rfl, rfl⟩
      obtain ⟨h1, h2⟩ := h1
      subst h1; subst h2
      exact ⟨rfl, rfl, rfl, rfl, he.symm⟩
    · rw [if_neg he] at h
      cases sa with
      | none => exact Except.noConfusion h
      | some p =>
        have h1 : some p = selA ∧ select_audio st p = st1 := by
          cases h; exact ⟨rfl, rfl⟩
        obtain ⟨h1, h2⟩ := h1
        subst h1; subst h2
        have hlt : p < st.audio_streams.length :=
          choose_audio_bound prefs st p hc he
        refine ⟨rfl, rfl, ?_, rfl, ?_⟩
        · simp [audio_metas, select_audio, map_fst_select_only]
        · simp [selected_audio, select_audio, sel_idx_select_only p _ hlt]

theorem choose_audio_stable (prefs : Preferences) (st st2 : VideoPart)
    (selA : Option Nat)
    (hc : choose_audio_track prefs st = .ok selA)
    (hv : st2.video_streams = st.video_streams)
    (hm : audio_metas st2 = audio_metas st)
    (hsel : selected_audio st2 = selA) :
    choose_audio_track prefs st2 = .ok selA := by
  unfold choose_audio_track at hc ⊢
  by_cases hk : prefs.keep_selected_audio
  · rw [if_pos hk]
    rw [hsel]
  · rw [if_neg hk] at hc ⊢
    rw [target_language_ext prefs st st2 hv hm,
      audio_candidates_ext prefs st st2 hm]
    cases hs : sortE (fun a b => language_cmp (target_language prefs st) a.2 b.2)
        (audio_candidates prefs st) with
    | error e => rw [hs] at hc; exact Except.noConfusion hc
    | ok l =>
      rw [hs] at hc
      cases l with
      | nil =>
        cases hc
        rw [hsel]
      | cons x xs => exact hc

theorem subtitle_phase_props (prefs : Preferences) (lang : Option Language)
    (st : VideoPart) (selS : Option Nat) (st2 : VideoPart)
    (h : subtitle_phase prefs lang (selected_subtitle st) st = .ok (selS, st2)) :
    st2.video_streams = st.video_streams ∧
    st2.audio_streams = st.audio_streams ∧
    subtitle_metas st2 = subtitle_metas st ∧
    selected_subtitle st2 = selS := by
  unfold subtitle_phase at h
  by_cases hk : prefs.keep_selected_subtitle && (selected_subtitle st).isSome
  · rw [if_pos hk] at h
    have h1 : selected_subtitle st = selS ∧ st = st2 := by
      cases h; exact ⟨rfl, rfl⟩
    obtain ⟨h1, h2⟩ := h1
    subst h2
    exact ⟨rfl, rfl, rfl, h1⟩
  · rw [if_neg hk] at h
    by_cases hcond : lang ≠ prefs.language ∨ prefs.force_subtitles
    · rw [if_pos hcond] at h
      cases hcs : choose_subtitle_track prefs st with
      | error e => simp only [hcs] at h; exact Except.noConfusion h
      | ok cs =>
        simp only [hcs] at h
        by_cases he : cs = selected_subtitle st
        · rw [if_pos he] at h
          have h1 : cs = selS ∧ st = st2 := by
            cases h; exact ⟨rfl, rfl⟩
          obtain ⟨h1, h2⟩ := h1
          subst h2; subst h1
          exact ⟨rfl, rfl, rfl, he.symm⟩
        · rw [if_neg he] at h
          cases cs with
          | none => exact Except.noConfusion h
          | some p =>
            have h1 : some p = selS ∧ select_subtitle st p = st2 := by
              cases h; exact ⟨rfl, rfl⟩
            obtain ⟨h1, h2⟩ := h1
            subst h1; subst h2
            have hlt : p < st.subtitle_streams.length :=
              choose_subtitle_bound prefs st p hcs he
            refine ⟨rfl, rfl, ?_, ?_⟩
            · simp [subtitle_metas, select_subtitle, map_fst_select_only]
            · simp [selected_subtitle, select_subtitle,
                sel_idx_select_only p _ hlt]
    · rw [if_neg hcond] at h
      by_cases hp : (selected_subtitle st).isSome
      · rw [if_pos hp] at h
        have h1 : (none : Option Nat) = selS ∧ unselect_subtitle st = st2 := by
          cases h; exact ⟨rfl, rfl⟩
        obtain ⟨h1, h2⟩ := h1
        subst h1; subst h2
        refine ⟨rfl, rfl, ?_, ?_⟩
        · simp [subtitle_metas, unselect_subtitle, map_fst_clear_selected]
        · simp [selected_subtitle, unselect_subtitle, sel_idx_clear_selected]
      · rw [if_neg hp] at h
        have h1 : selected_subtitle st = selS ∧ st = st2 := by
          cases h; exact ⟨rfl, rfl⟩
        obtain ⟨h1, h2⟩ := h1
        subst h2
        exact ⟨rfl, rfl, rfl, h1⟩

theorem choose_subtitle_stable (prefs : Preferences) (st st2 : VideoPart)
    (cs : Option Nat)
    (hcs : choose_subtitle_track prefs st = .ok cs)
    (hm : subtitle_metas st2 = subtitle_metas st) :
    choose_subtitle_track prefs st2 = .ok cs ∨
      (cs = selected_subtitle st ∧
        choose_subtitle_track prefs st2 = .ok (selected_subtitle st2)) := by
  unfold choose_subtitle_track at hcs ⊢
  rw [subtitle_candidates_ext prefs st st2 hm]
  cases hs : sortE (fun a b => language_cmp prefs.language a.2 b.2)
      (subtitle_candidates prefs st) with
  | error e => simp only [hs] at hcs; exact Except.noConfusion hcs
  | ok l =>
    simp only [hs] at hcs
    cases l with
    | nil => exact Or.inr ⟨(Except.ok.inj hcs).symm, rfl⟩
    | cons x xs => exact Or.inl hcs

theorem subtitle_phase_stable (prefs : Preferences) (lang : Option Language)
    (st : VideoPart) (selS : Option Nat) (st2 : VideoPart)
    (h : subtitle_phase prefs lang (selected_subtitle st) st = .ok (selS, st2))
    (hm : subtitle_metas st2 = subtitle_metas st)
    (hsel : selected_subtitle st2 = selS) :
    subtitle_phase prefs lang selS st2 = .ok (selS, st2) := by
  unfold subtitle_phase at h
  by_cases hk2 : prefs.keep_selected_subtitle && selS.isSome
  · unfold subtitle_phase
    rw [if_pos hk2]
  · by_cases hk : prefs.keep_selected_subtitle && (selected_subtitle st).isSome
    · rw [if_pos hk] at h
      have h1 : selected_subtitle st = selS := by cases h; rfl
      exact absurd (h1 ▸ hk) hk2
    · rw [if_neg hk] at h
      by_cases hcond : lang ≠ prefs.language ∨ prefs.force_subtitles
      · rw [if_pos hcond] at h
        cases hcs : choose_subtitle_track prefs st with
        | error e => simp only [hcs] at h; exact Except.noConfusion h
        | ok cs =>
          simp only [hcs] at h
          by_cases he : cs = selected_subtitle st
          · rw [if_pos he] at h
            have h1 : cs = selS ∧ st = st2 := by
              cases h; exact ⟨rfl, rfl⟩
            obtain ⟨h1, h2⟩ := h1
            have hch : choose_subtitle_track prefs st2 = .ok selS := by
              rcases choose_subtitle_stable prefs st st2 cs hcs hm with
                hd | ⟨hd1, hd2⟩
              · rw [hd, h1]
              · rw [hd2, hsel]
            unfold subtitle_phase
            rw [if_neg hk2, if_pos hcond]
            simp [hch]
          · rw [if_neg he] at h
            cases cs with
            | none => exact Except.noConfusion h
            | some p =>
              have h1 : some p = selS ∧ select_subtitle st p = st2 := by
                cases h; exact ⟨rfl, rfl⟩
              obtain ⟨h1, h2⟩ := h1
              have hch : choose_subtitle_track prefs st2 = .ok selS := by
                rcases choose_subtitle_stable prefs st st2 (some p) hcs hm with
                  hd | ⟨hd1, hd2⟩
                · rw [hd, h1]
                · exact absurd hd1 he
              unfold subtitle_phase
              rw [if_neg hk2, if_pos hcond]
              simp [hch]
      · rw [if_neg hcond] at h
        by_cases hp : (selected_subtitle st).isSome
        · rw [if_pos hp] at h
          have h1 : (none : Option Nat) = selS ∧ unselect_subtitle st = st2 := by
            cases h; exact ⟨rfl, rfl⟩
          obtain ⟨h1, h2⟩ := h1
          unfold subtitle_phase
          rw [if_neg hk2, if_neg hcond, if_neg (by rw [← h1]; simp)]
        · rw [if_neg hp] at h
          have h1 : selected_subtitle st = selS ∧ st = st2 := by
            cases h; exact ⟨rfl, rfl⟩
          obtain ⟨h1, h2⟩ := h1
          unfold subtitle_phase
          rw [if_neg hk2, if_neg hcond, if_neg (by rw [← h1]; exact hp)]

theorem save_preferences_rerun (prefs : Preferences) (st st' : VideoPart)
    (ch : Option Change)
    (h : save_preferences prefs st = .ok (st', ch)) :
    save_preferences prefs st' = .ok (st', none) := by
  unfold save_preferences at h ⊢
  cases hA : audio_phase prefs st with
  | error e => simp only [hA] at h; exact Except.noConfusion h
  | ok pA =>
    obtain ⟨selA, st1⟩ := pA
    simp only [hA] at h
    obtain ⟨hcA, hv1, hm1, hs1, hsel1⟩ := audio_phase_props prefs st selA st1 hA
    have hsub1 : selected_subtitle st1 = selected_subtitle st := by
      unfold selected_subtitle
      rw [hs1]
    rw [← hsub1] at h
    cases hS : subtitle_phase prefs
        (selA.bind fun p => (audio_meta st p).map Stream.language)
        (selected_subtitle st1) st1 with
    | error e => simp only [hS] at h; exact Except.noConfusion h
    | ok pS =>
      obtain ⟨selS, st2⟩ := pS
      simp only [hS] at h
      have hst : st2 = st' := by
        cases h
        rfl
      subst hst
      obtain ⟨hv2, ha2, hm2, hsel2⟩ :=
        subtitle_phase_props prefs _ st1 selS st2 hS
      have hmet2 : audio_metas st2 = audio_metas st := by
        unfold audio_metas
        rw [ha2]
        exact hm1
      have hvid2 : st2.video_streams = st.video_streams := hv2.trans hv1
      have haud2 : selected_audio st2 = selA := by
        unfold selected_audio
        rw [ha2]
        exact hsel1
      have hch2 : choose_audio_track prefs st2 = .ok selA :=
        choose_audio_stable prefs st st2 selA hcA hvid2 hmet2 haud2
      have hAP2 : audio_phase prefs st2 = .ok (selA, st2) := by
        unfold audio_phase
        rw [hch2]
        simp [haud2]
      have hlang : (selA.bind fun p => (audio_meta st2 p).map Stream.language)
          = (selA.bind fun p => (audio_meta st p).map Stream.language) := by
        have hmeta : ∀ p, audio_meta st2 p = audio_meta st p := by
          intro p
          unfold audio_meta
          rw [hmet2]
        cases selA with
        | none => rfl
        | some p => simp [hmeta p]
      have hmsub2 : subtitle_metas st2 = subtitle_metas st1 := hm2
      have hSP2 : subtitle_phase prefs
          (selA.bind fun p => (audio_meta st p).map Stream.language)
          selS st2 = .ok (selS, st2) :=
        subtitle_phase_stable prefs _ st1 selS st2 hS hmsub2 hsel2
      simp only [hAP2, hlang, hSP2, haud2, hsel2]
      simp

theorem save_preferences_change_needed (prefs : Preferences)
    (st st' : VideoPart) (c : Change)
    (h : save_preferences prefs st = .ok (st', some c)) :
    c.audio ≠ c.previous_audio ∨ c.subtitle ≠ c.previous_subtitle := by
  unfold save_preferences at h
  cases hA : audio_phase prefs st with
  | error e => simp only [hA] at h; exact Except.noConfusion h
  | ok pA =>
    obtain ⟨selA, st1⟩ := pA
    simp only [hA] at h
    cases hS : subtitle_phase prefs
        (selA.bind fun p => (audio_meta st p).map Stream.language)
        (selected_subtitle st) st1 with
    | error e => simp only [hS] at h; exact Except.noConfusion h
    | ok pS =>
      obtain ⟨selS, st2⟩ := pS
      simp only [hS] at h
      by_cases hd : selA ≠ selected_audio st ∨ selS ≠ selected_subtitle st
      · rw [if_pos hd] at h
        have hc : Change.mk (selected_audio st) (selected_subtitle st)
            selA selS = c := by
          cases h
          rfl
        subst hc
        simpa using hd
      · rw [if_neg hd] at h
        simp at h

/-- C1: for every media part and preferences, a second `save_preferences`
run immediately after a successful first one — with no metadata change
other than the selected-flag mutations the first run issued — returns no
`Change` and leaves the state untouched; and a returned `Change` always
differs on audio or subtitle from the pre-run selection state. -/
theorem save_preferences_idempotent (prefs : Preferences)
    (st st' : VideoPart) (ch : Option Change)
    (h : save_preferences prefs st = .ok (st', ch)) :
    save_preferences prefs st' = .ok (st', none) ∧
    ∀ c, ch = some c →
      c.audio ≠ c.previous_audio ∨ c.subtitle ≠ c.previous_subtitle := by
  refine ⟨save_preferences_rerun prefs st st' ch h, ?_⟩
  intro c hc
  subst hc
  exact save_preferences_change_needed prefs st st' c h

/-- Dubbed watching preference in English, no codec restrictions. -/
def prefs_dub_eng : Preferences :=
  ⟨.DUBBED, some ⟨"eng", none, none⟩, [], [], [], [], false, false, false⟩

/-- An English audio stream, already selected. -/
def stream_eng : Stream :=
  ⟨⟨"eng", none, none⟩, false, false, false, 0, none, true⟩

/-- A part holding one selected English audio stream and nothing else. -/
def part_eng : VideoPart := ⟨[], [(stream_eng, true)], []⟩

theorem save_preferences_idempotent_witness :
    save_preferences prefs_dub_eng part_eng = .ok (part_eng, none) :=
  (save_preferences_idempotent prefs_dub_eng part_eng part_eng none
    (by decide)).1

theorem language_cmp_total (d : Language) (a b : Stream) :
    ∃ c, language_cmp (some d) a b = .ok c := by
  unfold language_cmp
  by_cases h1 : a.language = b.language
  · exact ⟨flag_cmp a b, by rw [if_pos h1]⟩
  · rw [if_neg h1]
    by_cases h2 : (some d : Option Language) = some a.language
    · exact ⟨-1, by rw [if_pos h2]⟩
    · rw [if_neg h2]
      by_cases h3 : (some d : Option Language) = some b.language
      · exact ⟨1, by rw [if_pos h3]⟩
      · rw [if_neg h3]
        exact ⟨_, rfl⟩

theorem choose_audio_ok_of_target (prefs : Preferences) (st : VideoPart)
    (ht : target_language prefs st ≠ none) :
    ∃ r, choose_audio_track prefs st = .ok r := by
  unfold choose_audio_track
  by_cases hk : prefs.keep_selected_audio
  · rw [if_pos hk]
    exact ⟨selected_audio st, rfl⟩
  · rw [if_neg hk]
    cases hd : target_language prefs st with
    | none => exact absurd hd ht
    | some d =>
      obtain ⟨r, hr⟩ := sortE_ok (fun a b => language_cmp (some d) a.2 b.2)
        (fun a b => language_cmp_total d a.2 b.2) (audio_candidates prefs st)
      rw [hr]
      cases r with
      | nil => exact ⟨selected_audio st, rfl⟩
      | cons x xs => exact ⟨some x.1, rfl⟩

theorem choose_subtitle_ok_of_language (prefs : Preferences) (st : VideoPart)
    (ht : prefs.language ≠ none) :
    ∃ r, choose_subtitle_track prefs st = .ok r := by
  unfold choose_subtitle_track
  cases hd : prefs.language with
  | none => exact absurd hd ht
  | some d =>
    obtain ⟨r, hr⟩ := sortE_ok (fun a b => language_cmp (some d) a.2 b.2)
      (fun a b => language_cmp_total d a.2 b.2) (subtitle_candidates prefs st)
    rw [hr]
    cases r with
    | nil => exact ⟨selected_subtitle st, rfl⟩
    | cons x xs => exact ⟨some x.1, rfl⟩

theorem choose_audio_empty (prefs : Preferences) (st : VideoPart)
    (hc : audio_candidates prefs st = []) :
    choose_audio_track prefs st = .ok (selected_audio st) := by
  unfold choose_audio_track
  rw [hc]
  by_cases hk : prefs.keep_selected_audio
  · rw [if_pos hk]
  · rw [if_neg hk]
    exact rfl

theorem choose_subtitle_empty (prefs : Preferences) (st : VideoPart)
    (hc : subtitle_candidates prefs st = []) :
    choose_subtitle_track prefs st = .ok (selected_subtitle st) := by
  unfold choose_subtitle_track
  rw [hc]
  exact rfl

/-- C4 (amended): audio selection completes without error whenever the
target language is non-null, subtitle selection whenever the preferred
language is non-null, and both degrade to keeping the previously selected
track when no candidate survives codec filtering; only with a null
target/desired language and surviving candidates of differing languages
does the comparator raise. -/
theorem track_selection_no_error (prefs : Preferences) (st : VideoPart) :
    (target_language prefs st ≠ none →
      ∃ r, choose_audio_track prefs st = .ok r) ∧
    (prefs.language ≠ none →
      ∃ r, choose_subtitle_track prefs st = .ok r) ∧
    (audio_candidates prefs st = [] →
      choose_audio_track prefs st = .ok (selected_audio st)) ∧
    (subtitle_candidates prefs st = [] →
      choose_subtitle_track prefs st = .ok (selected_subtitle st)) :=
  ⟨choose_audio_ok_of_target prefs st,
   choose_subtitle_ok_of_language prefs st,
   choose_audio_empty prefs st,
   choose_subtitle_empty prefs st⟩

/-- A part with no streams at all. -/
def part_empty : VideoPart := ⟨[], [], []⟩

theorem track_selection_no_error_witness :
    (∃ r, choose_audio_track prefs_dub_eng part_eng = .ok r) ∧
    (∃ r, choose_subtitle_track prefs_dub_eng part_eng = .ok r) ∧
    choose_audio_track prefs_dub_eng part_empty =
      .ok (selected_audio part_empty) ∧
    choose_subtitle_track prefs_dub_eng part_empty =
      .ok (selected_subtitle part_empty) :=
  ⟨(track_selection_no_error prefs_dub_eng part_eng).1 (by decide),
   (track_selection_no_error prefs_dub_eng part_eng).2.1 (by decide),
   (track_selection_no_error prefs_dub_eng part_empty).2.2.1 (by decide),
   (track_selection_no_error prefs_dub_eng part_empty).2.2.2 (by decide)⟩

/-- Dubbed watching preference with no preferred language (the CLI's
`--language` option is optional), no codec restrictions. -/
def prefs_dub_nolang : Preferences :=
  ⟨.DUBBED, none, [], [], [], [], false, false, false⟩

/-- A part with an English and a French audio stream, none selected. -/
def part_eng_fra : VideoPart :=
  ⟨[],
   [(⟨⟨"eng", none, none⟩, false, false, false, 0, none, false⟩, false),
    (⟨⟨"fra", none, none⟩, false, false, false, 1, none, false⟩, false)],
   []⟩

/-- C4 counterexample: under a dubbed preference with no preferred
language, ranking two audio candidates of different languages dereferences
`desired_language.alpha3` on `None` and raises, contradicting the claim
that selection never raises when the target language is null. -/
theorem choose_audio_track_raises :
    choose_audio_track prefs_dub_nolang part_eng_fra = .error () := by
  decide

/-- The desired language pt-BR used in the comparator counterexamples. -/
def lang_por_br : Language := ⟨"por", some "BR", none⟩

/-- A Portuguese (Portugal) stream at index 0. -/
def stream_por_pt : Stream :=
  ⟨⟨"por", some "PT", none⟩, false, false, false, 0, none, false⟩

/-- A Portuguese (Brazil, Latin script) stream at index 1: same alpha3 as
`stream_por_pt`, carries the desired language's country, but is not
identical to the desired language. -/
def stream_por_br_latn : Stream :=
  ⟨⟨"por", some "BR", some "Latn"⟩, false, false, false, 1, none, false⟩

/-- C2 (code bug): the two streams share the alpha3 base code, differ in
country, and `b` carries the desired language's country, so the claim
requires the comparator to return 1 (rank `b` first); line 398 compares the
`Language` `b` against the `Country` of the desired language, which is
always false, so the comparator falls through to index order and returns
-1. -/
theorem country_rule_broken :
    stream_por_pt.language.alpha3 = stream_por_br_latn.language.alpha3 ∧
    stream_por_pt.language.country ≠ stream_por_br_latn.language.country ∧
    stream_por_br_latn.language.country = lang_por_br.country ∧
    stream_por_pt.language.country ≠ lang_por_br.country ∧
    language_cmp (some lang_por_br) stream_por_pt stream_por_br_latn
      = .ok (-1) := by
  decide

/-- A Portuguese (Brazil, Latin script) stream at index 1, as `a`. -/
def stream_x_br : Stream :=
  ⟨⟨"por", some "BR", some "Latn"⟩, false, false, false, 1, none, false⟩

/-- A Portuguese (Portugal) stream at index 0, as `b`. -/
def stream_y_pt : Stream :=
  ⟨⟨"por", some "PT", none⟩, false, false, false, 0, none, false⟩

/-- C3 (code bug): the comparator is not antisymmetric.  Against desired
pt-BR, `compare(x, y) = -1` by the country rule, but `compare(y, x)` falls
through the broken line-398 test to index order and also returns -1
instead of 1. -/
theorem comparator_not_antisymmetric :
    language_cmp (some lang_por_br) stream_x_br stream_y_pt = .ok (-1) ∧
    language_cmp (some lang_por_br) stream_y_pt stream_x_br = .ok (-1) := by
  decide

/-- A `Title` (`api.py` 62-98): year, season and episode are `none` when
the optional regex groups are absent. -/
structure Title where
  name : String
  year : Option Nat
  season : Option Nat
  episode : Option Nat
deriving DecidableEq, Repr

/-- `Title.is_episode` (`api.py` 92-94). -/
def Title.is_episode (t : Title) : Bool :=
  t.season.isSome || t.episode.isSome

/-- `Title.is_only_name` (`api.py` 96-98). -/
def Title.is_only_name (t : Title) : Bool :=
  t.year.isNone && !t.is_episode

/-- Python truthiness of an optional int (`if title.year:`): both `None`
and `0` are falsy. -/
def opt_nat_truthy : Option Nat → Bool
  | none => false
  | some n => n != 0

/-- Python truthiness of an optional string (`if self.newer_than:`): `None`
and the empty string are falsy. -/
def opt_str_truthy : Option String → Bool
  | none => false
  | some s => !s.isEmpty

/-- A value stored in a compiled filter mapping. -/
inductive FValue
  | s (v : String)
  | n (v : Nat)
  | names (vs : List String)
deriving DecidableEq, Repr

/-- A compiled filter: the predicate-name → value mapping built by
`Criteria.__to_filter`, as an association list in dict insertion order. -/
abbrev CompiledFilter := List (String × FValue)

/-- The `names` argument of `Criteria.__to_filter`: a single title name or
a list of names (`typing.Union[str, typing.List[str]]`). -/
inductive NameArg
  | one (s : String)
  | many (l : List String)
deriving DecidableEq, Repr

/-- Python truthiness of the `names` argument (`if names:`). -/
def NameArg.truthy : NameArg → Bool
  | .one s => !s.isEmpty
  | .many l => !l.isEmpty

/-- The filter value stored under the title key. -/
def NameArg.value : NameArg → FValue
  | .one s => .s s
  | .many l => .names l

/-- `Criteria` (`api.py` 130-142). -/
structure Criteria where
  libraries : List String
  titles : List Title
  newer_than : Option String
  older_than : Option String
  skip_watching : Bool
deriving DecidableEq, Repr

/-- `Criteria.__matching_titles` (`api.py` 144-148): for MOVIE drop episode
titles, for EPISODE keep all. -/
def matching_titles (c : Criteria) (lib : LibraryType) : List Title :=
  if lib = .MOVIE then c.titles.filter (fun t => !t.is_episode)
  else c.titles

/-- The name predicate key: `'show' if lib_type == EPISODE else 'movie'`
followed by `.title` (`api.py` 156-158). -/
def title_key (lib : LibraryType) : String :=
  (if lib = .EPISODE then "show" else "movie") ++ ".title"

/-- The age-bound part of `Criteria.__to_filter` (`api.py` 151-155). -/
def age_filter (c : Criteria) : CompiledFilter :=
  (if opt_str_truthy c.newer_than
     then [("addedAt>>", FValue.s (c.newer_than.getD ""))] else [])
  ++ (if opt_str_truthy c.older_than
     then [("addedAt<<", FValue.s (c.older_than.getD ""))] else [])

/-- `Criteria.__to_filter` (`api.py` 150-160). -/
def to_filter (c : Criteria) (names : NameArg) (lib : LibraryType) :
    CompiledFilter :=
  age_filter c
  ++ (if names.truthy then [(title_key lib, names.value)] else [])

/-- The filter built for a single title in the loop of `to_filters`
(`api.py` 179-186): the conditions use Python truthiness, so a value of 0
adds no predicate. -/
def per_title_filter (c : Criteria) (lib : LibraryType) (t : Title) :
    CompiledFilter :=
  to_filter c (.one t.name) lib
  ++ (if opt_nat_truthy t.year
      then [(lib.value ++ ".year", FValue.n (t.year.getD 0))] else [])
  ++ (if opt_nat_truthy t.season
      then [("season.index", FValue.n (t.season.getD 0))] else [])
  ++ (if opt_nat_truthy t.episode
      then [("episode.index", FValue.n (t.episode.getD 0))] else [])

/-- `Criteria.to_filters` (`api.py` 162-188). -/
def to_filters (c : Criteria) (lib : LibraryType) : List CompiledFilter :=
  let titles := matching_titles c lib
  if titles.isEmpty then
    if c.titles.isEmpty then [to_filter c (.many []) lib] else []
  else
    let names := (titles.filter Title.is_only_name).map Title.name
    if names.length = titles.length then [to_filter c (.many names) lib]
    else
      (titles.filter
        (fun t => !(t.is_episode && decide (lib ≠ .EPISODE)))).map
        (per_title_filter c lib)

theorem age_filter_keys (c : Criteria) :
    ∀ kv ∈ age_filter c, kv.1 = "addedAt>>" ∨ kv.1 = "addedAt<<" := by
  intro kv hkv
  unfold age_filter at hkv
  rcases List.mem_append.mp hkv with h | h
  · by_cases hn : opt_str_truthy c.newer_than
    · rw [if_pos hn] at h
      simp at h
      subst h
      exact Or.inl rfl
    · rw [if_neg hn] at h
      cases h
  · by_cases ho : opt_str_truthy c.older_than
    · rw [if_pos ho] at h
      simp at h
      subst h
      exact Or.inr rfl
    · rw [if_neg ho] at h
      cases h

theorem lookup_append_of_ne (k : String) (l1 l2 : CompiledFilter)
    (h : ∀ kv ∈ l1, kv.1 ≠ k) :
    (l1 ++ l2).lookup k = l2.lookup k := by
  induction l1 with
  | nil => rfl
  | cons x xs ih =>
    obtain ⟨xk, xv⟩ := x
    have hx : xk ≠ k := h (xk, xv) (List.mem_cons_self _ _)
    have hbeq : (k == xk) = false :=
      beq_eq_false_iff_ne.mpr (fun he => hx he.symm)
    simp only [List.cons_append, List.lookup, hbeq]
    exact ih (fun kv hkv => h kv (List.mem_cons_of_mem _ hkv))

theorem lookup_eq_none_of_ne (k : String) (l : CompiledFilter)
    (h : ∀ kv ∈ l, kv.1 ≠ k) : l.lookup k = none := by
  induction l with
  | nil => rfl
  | cons x xs ih =>
    obtain ⟨xk, xv⟩ := x
    have hx : xk ≠ k := h (xk, xv) (List.mem_cons_self _ _)
    have hbeq : (k == xk) = false :=
      beq_eq_false_iff_ne.mpr (fun he => hx he.symm)
    simp only [List.lookup, hbeq]
    exact ih (fun kv hkv => h kv (List.mem_cons_of_mem _ hkv))

theorem to_filter_keys (c : Criteria) (names : NameArg) (lib : LibraryType) :
    ∀ kv ∈ to_filter c names lib,
      kv.1 = "addedAt>>" ∨ kv.1 = "addedAt<<" ∨ kv.1 = title_key lib := by
  intro kv hkv
  unfold to_filter at hkv
  rcases List.mem_append.mp hkv with h | h
  · rcases age_filter_keys c kv h with h1 | h1
    · exact Or.inl h1
    · exact Or.inr (Or.inl h1)
  · by_cases ht : names.truthy
    · rw [if_pos ht] at h
      simp at h
      subst h
      exact Or.inr (Or.inr rfl)
    · rw [if_neg ht] at h
      cases h

theorem opt_entry_keys (b : Bool) (kk : String) (v : FValue) :
    ∀ kv ∈ (if b then [(kk, v)] else ([] : CompiledFilter)), kv.1 = kk := by
  intro kv hkv
  cases b
  · simp at hkv
  · simp at hkv
    subst hkv
    rfl

theorem per_title_lookup_year (c : Criteria) (lib : LibraryType) (t : Title) :
    (per_title_filter c lib t).lookup (lib.value ++ ".year") =
      if opt_nat_truthy t.year then some (FValue.n (t.year.getD 0))
      else none := by
  unfold per_title_filter
  simp only [List.append_assoc]
  rw [lookup_append_of_ne _ _ _ (fun kv hkv => by
    rcases to_filter_keys c (.one t.name) lib kv hkv with h | h | h <;>
      rw [h] <;> cases lib <;> decide)]
  by_cases hy : opt_nat_truthy t.year
  · rw [if_pos hy, if_pos hy, List.singleton_append]
    simp [List.lookup]
  · rw [if_neg hy, if_neg hy, List.nil_append]
    rw [lookup_append_of_ne _ _ _ (fun kv hkv => by
      rw [opt_entry_keys _ _ _ kv hkv]
      cases lib <;> decide)]
    exact lookup_eq_none_of_ne _ _ (fun kv hkv => by
      rw [opt_entry_keys _ _ _ kv hkv]
      cases lib <;> decide)

theorem per_title_lookup_season (c : Criteria) (lib : LibraryType) (t : Title) :
    (per_title_filter c lib t).lookup "season.index" =
      if opt_nat_truthy t.season then some (FValue.n (t.season.getD 0))
      else none := by
  unfold per_title_filter
  simp only [List.append_assoc]
  rw [lookup_append_of_ne _ _ _ (fun kv hkv => by
    rcases to_filter_keys c (.one t.name) lib kv hkv with h | h | h <;>
      rw [h] <;> cases lib <;> decide)]
  rw [lookup_append_of_ne _ _ _ (fun kv hkv => by
    rw [opt_entry_keys _ _ _ kv hkv]
    cases lib <;> decide)]
  by_cases hs : opt_nat_truthy t.season
  · rw [if_pos hs, if_pos hs, List.singleton_append]
    simp [List.lookup]
  · rw [if_neg hs, if_neg hs, List.nil_append]
    exact lookup_eq_none_of_ne _ _ (fun kv hkv => by
      rw [opt_entry_keys _ _ _ kv hkv]
      cases lib <;> decide)

theorem per_title_lookup_episode (c : Criteria) (lib : LibraryType) (t : Title) :
    (per_title_filter c lib t).lookup "episode.index" =
      if opt_nat_truthy t.episode then some (FValue.n (t.episode.getD 0))
      else none := by
  unfold per_title_filter
  simp only [List.append_assoc]
  rw [lookup_append_of_ne _ _ _ (fun kv hkv => by
    rcases to_filter_keys c (.one t.name) lib kv hkv with h | h | h <;>
      rw [h] <;> cases lib <;> decide)]
  rw [lookup_append_of_ne _ _ _ (fun kv hkv => by
    rw [opt_entry_keys _ _ _ kv hkv]
    cases lib <;> decide)]
  rw [lookup_append_of_ne _ _ _ (fun kv hkv => by
    rw [opt_entry_keys _ _ _ kv hkv]
    cases lib <;> decide)]
  by_cases he : opt_nat_truthy t.episode
  · rw [if_pos he, if_pos he]
    simp [List.lookup]
  · rw [if_neg he, if_neg he]
    rfl

/-- C6: an empty title list compiles to exactly one filter holding only
the age bounds and no name predicate; a non-empty title list with no title
relevant to the requested entity kind compiles to no filters at all. -/
theorem to_filters_universal_or_empty (c : Criteria) (lib : LibraryType) :
    (c.titles = [] →
      to_filters c lib = [age_filter c] ∧
      (age_filter c).lookup (title_key lib) = none) ∧
    (c.titles ≠ [] → matching_titles c lib = [] →
      to_filters c lib = []) := by
  constructor
  · intro h
    have hm : matching_titles c lib = [] := by
      unfold matching_titles
      rw [h]
      cases lib <;> simp
    constructor
    · simp [to_filters, hm, h, to_filter, NameArg.truthy]
    · exact lookup_eq_none_of_ne _ _ (fun kv hkv => by
        rcases age_filter_keys c kv hkv with h1 | h1 <;>
          rw [h1] <;> cases lib <;> decide)
  · intro h1 h2
    have hte : c.titles.isEmpty = false := by
      cases ht : c.titles
      · exact absurd ht h1
      · rfl
    simp [to_filters, h2, hte]

/-- Criteria with no titles and an age bound. -/
def crit_none : Criteria := ⟨[], [], some "1w", none, false⟩

/-- Criteria whose only title is an episode title. -/
def crit_ep_only : Criteria := ⟨[], [⟨"B", none, some 2, none⟩], none, none, false⟩

theorem to_filters_universal_or_empty_witness :
    (to_filters crit_none .MOVIE = [age_filter crit_none] ∧
      (age_filter crit_none).lookup (title_key .MOVIE) = none) ∧
    to_filters crit_ep_only .MOVIE = [] :=
  ⟨(to_filters_universal_or_empty crit_none .MOVIE).1 rfl,
   (to_filters_universal_or_empty crit_ep_only .MOVIE).2 (by decide) (by decide)⟩

/-- C7: when the relevant titles are non-empty and all bare names,
compilation batches them into exactly one filter whose name predicate is
the list of all those names. -/
theorem to_filters_batched (c : Criteria) (lib : LibraryType)
    (hne : matching_titles c lib ≠ [])
    (hall : ∀ t ∈ matching_titles c lib, t.is_only_name) :
    to_filters c lib =
      [age_filter c ++
        [(title_key lib,
          FValue.names ((matching_titles c lib).map Title.name))]] := by
  have hfe : (matching_titles c lib).filter Title.is_only_name =
      matching_titles c lib :=
    List.filter_eq_self.mpr (fun a ha => hall a ha)
  have hie : (matching_titles c lib).isEmpty = false := by
    cases hmm : matching_titles c lib
    · exact absurd hmm hne
    · rfl
  have htr : (NameArg.many ((matching_titles c lib).map Title.name)).truthy
      = true := by
    unfold NameArg.truthy
    cases hmm : matching_titles c lib
    · exact absurd hmm hne
    · simp
  simp only [to_filters, hfe, hie, List.length_map, Bool.false_eq_true,
    if_false, if_pos rfl]
  simp [to_filter, htr, NameArg.value]

/-- Criteria with two bare-name titles. -/
def crit_two_names : Criteria :=
  ⟨[], [⟨"A", none, none, none⟩, ⟨"B", none, none, none⟩], none, none, false⟩

theorem to_filters_batched_witness :
    to_filters crit_two_names .MOVIE =
      [age_filter crit_two_names ++
        [(title_key .MOVIE,
          FValue.names
            ((matching_titles crit_two_names .MOVIE).map Title.name))]] :=
  to_filters_batched crit_two_names .MOVIE (by decide) (by decide)

/-- A title with season 0 (a real Plex season: specials). -/
def title_season0 : Title := ⟨"X", none, some 0, none⟩

/-- Criteria holding only the season-0 title. -/
def crit_season0 : Criteria := ⟨[], [title_season0], none, none, false⟩

/-- C5 counterexample: the title's season is set (to 0), yet the compiled
filter contains no season-index predicate, because `to_filters` tests
Python truthiness (`if title.season:`) and 0 is falsy. -/
theorem zero_season_no_predicate :
    title_season0.season = some 0 ∧
    to_filters crit_season0 .EPISODE = [[("show.title", FValue.s "X")]] ∧
    (per_title_filter crit_season0 .EPISODE title_season0).lookup
      "season.index" = none := by
  decide

/-- C5 (amended): when the relevant titles are not all bare names,
compilation yields exactly one filter per relevant title (in order), and a
title's filter contains the year / season-index / episode-index predicate
exactly when the corresponding value is set and non-zero — a set value of
0 is treated like an unset one. -/
theorem to_filters_per_title (c : Criteria) (lib : LibraryType)
    (hnotall : ((matching_titles c lib).filter Title.is_only_name).length ≠
      (matching_titles c lib).length) :
    to_filters c lib =
      (matching_titles c lib).map (per_title_filter c lib) ∧
    ∀ t : Title,
      ((per_title_filter c lib t).lookup (lib.value ++ ".year") =
        if opt_nat_truthy t.year then some (FValue.n (t.year.getD 0))
        else none) ∧
      ((per_title_filter c lib t).lookup "season.index" =
        if opt_nat_truthy t.season then some (FValue.n (t.season.getD 0))
        else none) ∧
      ((per_title_filter c lib t).lookup "episode.index" =
        if opt_nat_truthy t.episode then some (FValue.n (t.episode.getD 0))
        else none) := by
  constructor
  · have hie : (matching_titles c lib).isEmpty = false := by
      cases hmm : matching_titles c lib
      · rw [hmm] at hnotall
        simp at hnotall
      · rfl
    have hkeep : ∀ t ∈ matching_titles c lib,
        (!(t.is_episode && decide (lib ≠ LibraryType.EPISODE))) = true := by
      intro t ht
      cases lib with
      | EPISODE => simp
      | MOVIE =>
        simp only [matching_titles, if_pos, List.mem_filter] at ht
        simp [ht.2]
    have hlen : (((matching_titles c lib).filter
        Title.is_only_name).map Title.name).length ≠
        (matching_titles c lib).length := by
      rw [List.length_map]
      exact hnotall
    simp only [to_filters, hie, Bool.false_eq_true, if_false, if_neg hlen]
    rw [List.filter_eq_self.mpr hkeep]
  · intro t
    exact ⟨per_title_lookup_year c lib t, per_title_lookup_season c lib t,
      per_title_lookup_episode c lib t⟩

/-- Criteria whose only title carries a year. -/
def crit_year : Criteria := ⟨[], [⟨"A", some 1999, none, none⟩], none, none, false⟩

theorem to_filters_per_title_witness :
    to_filters crit_year .MOVIE =
      (matching_titles crit_year .MOVIE).map
        (per_title_filter crit_year .MOVIE) ∧
    ∀ t : Title,
      ((per_title_filter crit_year .MOVIE t).lookup
          (LibraryType.value .MOVIE ++ ".year") =
        if opt_nat_truthy t.year then some (FValue.n (t.year.getD 0))
        else none) ∧
      ((per_title_filter crit_year .MOVIE t).lookup "season.index" =
        if opt_nat_truthy t.season then some (FValue.n (t.season.getD 0))
        else none) ∧
      ((per_title_filter crit_year .MOVIE t).lookup "episode.index" =
        if opt_nat_truthy t.episode then some (FValue.n (t.episode.getD 0))
        else none) :=
  to_filters_per_title crit_year .MOVIE (by decide)

/-- The mapping returned by the external guesser (trakit): optional
`language`, `commentary`, `hearing_impaired` and `closed_caption` keys. -/
structure Guess where
  language : Option Language
  commentary : Option Bool
  hearing_impaired : Option Bool
  closed_caption : Option Bool
deriving DecidableEq, Repr

/-- The empty guess mapping (`{}`), used when the derived title is falsy. -/
def empty_guess : Guess := ⟨none, none, none, none⟩

/-- The guess step of `Stream.from_stream` (`api.py` 298-301): the external
guesser is consulted only when the derived title is truthy, with the single
explicit language passed as the `expected_language` hint. -/
def stream_guess (guesser : String → Option Language → Guess)
    (title : Option String) (expected : List Language) : Guess :=
  match title with
  | none => empty_guess
  | some ttl =>
    if ttl.isEmpty then empty_guess
    else guesser ttl (if expected.length = 1 then expected.head? else none)

/-- The final-language resolution of `Stream.from_stream` (`api.py`
303-308): more than one explicit language → the first explicit one (the
guess is not consulted); exactly one → the guessed language when the guess
carries the `language` key, else the explicit one; none → Python's
`guessed.get('language') or Language('und')`, where `or` tests truthiness,
so a falsy (undetermined) guessed language is replaced by the plain `und`
sentinel. -/
def stream_language (expected : List Language) (guessed : Guess) : Language :=
  match expected with
  | e :: _ :: _ => e
  | [e] =>
    match guessed.language with
    | some g => g
    | none => e
  | [] =>
    match guessed.language with
    | some g => if g.truthy then g else lang_und
    | none => lang_und

/-- The classifier's language, from title and explicit languages through
the external guesser. -/
def from_stream_language (guesser : String → Option Language → Guess)
    (title : Option String) (expected : List Language) : Language :=
  stream_language expected (stream_guess guesser title expected)

/-- An undetermined-language guess qualified with a country. -/
def guess_und_us : Guess := ⟨some ⟨"und", some "US", none⟩, none, none, none⟩

/-- C8 counterexample: with no explicit language and a guess supplying the
(falsy) language und-US, the final language is the plain undetermined
sentinel rather than the guessed language — `or` tests truthiness, not key
presence, so the claim's "the guessed language" fails here. -/
theorem guessed_und_variant_dropped :
    guess_und_us.language = some ⟨"und", some "US", none⟩ ∧
    stream_language [] guess_und_us = lang_und ∧
    stream_language [] guess_und_us ≠ ⟨"und", some "US", none⟩ := by
  decide

/-- C8 (amended): with more than one explicit language the first explicit
one wins and the guess is ignored; with exactly one explicit language the
guessed language wins whenever the guess supplies one (truthy or not),
else the explicit one; with no explicit language a truthy guessed language
wins, and a falsy or missing one yields the undetermined sentinel. -/
theorem stream_language_resolution (e e2 : Language) (rest : List Language)
    (guessed : Guess) :
    stream_language (e :: e2 :: rest) guessed = e ∧
    (∀ g, guessed.language = some g → stream_language [e] guessed = g) ∧
    (guessed.language = none → stream_language [e] guessed = e) ∧
    (∀ g, guessed.language = some g → g.truthy = true →
      stream_language [] guessed = g) ∧
    (∀ g, guessed.language = some g → g.truthy = false →
      stream_language [] guessed = lang_und) ∧
    (guessed.language = none → stream_language [] guessed = lang_und) := by
  refine ⟨rfl, ?_, ?_, ?_, ?_, ?_⟩
  · intro g hg
    simp [stream_language, hg]
  · intro hg
    simp [stream_language, hg]
  · intro g hg ht
    simp [stream_language, hg, ht]
  · intro g hg ht
    simp [stream_language, hg, ht]
  · intro hg
    simp [stream_language, hg]

/-- A French-language guess. -/
def guess_fra : Guess := ⟨some ⟨"fra", none, none⟩, none, none, none⟩

theorem stream_language_resolution_witness :
    stream_language [⟨"eng", none, none⟩, ⟨"spa", none, none⟩] guess_fra =
      ⟨"eng", none, none⟩ ∧
    stream_language [⟨"eng", none, none⟩] guess_fra = ⟨"fra", none, none⟩ ∧
    stream_language [] guess_fra = ⟨"fra", none, none⟩ :=
  ⟨(stream_language_resolution ⟨"eng", none, none⟩ ⟨"spa", none, none⟩ []
      guess_fra).1,
   (stream_language_resolution ⟨"eng", none, none⟩ ⟨"spa", none, none⟩ []
      guess_fra).2.1 ⟨"fra", none, none⟩ rfl,
   (stream_language_resolution ⟨"eng", none, none⟩ ⟨"spa", none, none⟩ []
      guess_fra).2.2.2.1 ⟨"fra", none, none⟩ rfl (by decide)⟩

/-- The claim's reading of `original_language`: the first default-flagged
video stream, else the first default-flagged audio stream, else null.
Written from the spec's words, for comparison with the code's
`original_language`. -/
def spec_original_language (st : VideoPart) : Option Language :=
  match st.video_streams.find? (fun m => m.default) with
  | some m => some m.language
  | none =>
    match (audio_metas st).find? (fun m => m.default) with
    | some m => some m.language
    | none => none

/-- A non-default English video stream. -/
def video_eng_nodefault : Stream :=
  ⟨⟨"eng", none, none⟩, false, false, false, 0, none, false⟩

/-- A part with one non-default video stream and nothing else. -/
def part_video_nodefault : VideoPart := ⟨[video_eng_nodefault], [], []⟩

/-- C9 counterexample: with a single non-default English video stream and
no audio streams, the code infers English (the default-first ordering
falls back to the first video stream), while the claim's reading yields
null. -/
theorem original_language_not_default_only :
    original_language part_video_nodefault = some ⟨"eng", none, none⟩ ∧
    spec_original_language part_video_nodefault = none := by
  decide

/-- The language of the first default stream with a determined language,
else of the first non-default stream with a determined language. -/
def default_first_pick (l : List Stream) : Option Language :=
  match l.find? (fun m => m.default && m.language.truthy) with
  | some m => some m.language
  | none =>
    (l.find? (fun m => !m.default && m.language.truthy)).map Stream.language

theorem find?_eq_head_filter (p : Stream → Bool) (l : List Stream) :
    l.find? p = (l.filter p).head? := by
  induction l with
  | nil => rfl
  | cons x xs ih =>
    cases hp : p x with
    | true => simp only [List.find?, List.filter, hp, List.head?]
    | false =>
      simp only [List.find?, List.filter, hp]
      exact ih

theorem filter_filter_and (p q : Stream → Bool) (l : List Stream) :
    (l.filter p).filter q = l.filter (fun a => p a && q a) := by
  induction l with
  | nil => rfl
  | cons x xs ih =>
    by_cases hp : p x <;> by_cases hq : q x <;>
      simp [List.filter_cons, hp, hq, ih]

theorem head?_map_lang (l : List Stream) :
    (l.map Stream.language).head? = l.head?.map Stream.language := by
  cases l <;> rfl

theorem head?_append_match (u v : List Stream) :
    (u ++ v).head? =
      (match u.head? with
       | some x => some x
       | none => v.head?) := by
  cases u <;> rfl

theorem pick_eq (l : List Stream) :
    (match ((sort_default_first l).filter
        (fun m => m.language.truthy)).map Stream.language with
     | x :: _ => some x
     | [] => none) = default_first_pick l := by
  have hm : ∀ xs : List Language,
      (match xs with | x :: _ => some x | [] => none) = xs.head? := by
    intro xs
    cases xs <;> rfl
  rw [hm, head?_map_lang]
  unfold sort_default_first
  rw [List.filter_append]
  simp only [filter_filter_and]
  unfold default_first_pick
  rw [find?_eq_head_filter, find?_eq_head_filter, head?_append_match]
  cases hu : (l.filter (fun m => m.default && m.language.truthy)).head? with
  | some m => rfl
  | none => rfl

theorem original_language_eq (st : VideoPart) :
    original_language st =
      (match default_first_pick st.video_streams with
       | some l => some l
       | none => default_first_pick (audio_metas st)) := by
  unfold original_language
  cases hv : ((sort_default_first st.video_streams).filter
      (fun m => m.language.truthy)).map Stream.language with
  | cons x xs =>
    have hp := pick_eq st.video_streams
    simp only [hv] at hp
    rw [← hp]
  | nil =>
    have hp := pick_eq st.video_streams
    simp only [hv] at hp
    rw [← hp]
    exact pick_eq (audio_metas st)

/-- C9 (amended): under an ORIGINAL watching preference the audio target
language is the part's original language, which is the language of the
first default video stream with a determined language, else of the first
non-default video stream with a determined language, else likewise over
the audio streams, else null — the code orders streams default-first but
falls back to non-default streams instead of skipping to the next kind. -/
theorem original_language_characterization (prefs : Preferences)
    (st : VideoPart) (h : prefs.watching_preference = .ORIGINAL) :
    target_language prefs st = original_language st ∧
    original_language st =
      (match default_first_pick st.video_streams with
       | some l => some l
       | none => default_first_pick (audio_metas st)) := by
  constructor
  · unfold target_language
    rw [h]
    rfl
  · exact original_language_eq st

/-- Original watching preference with no preferred language. -/
def prefs_orig : Preferences :=
  ⟨.ORIGINAL, none, [], [], [], [], false, false, false⟩

theorem original_language_characterization_witness :
    target_language prefs_orig part_video_nodefault =
      original_language part_video_nodefault ∧
    original_language part_video_nodefault =
      (match default_first_pick part_video_nodefault.video_streams with
       | some l => some l
       | none => default_first_pick (audio_metas part_video_nodefault)) :=
  original_language_characterization prefs_orig part_video_nodefault rfl

/-- Python `\s` over the ASCII whitespace characters. -/
def is_space (ch : Char) : Bool :=
  ch = ' ' || ch = '\t' || ch = '\n' || ch = '\r' ||
    ch = '\x0b' || ch = '\x0c'

/-- Python `\d` over ASCII digits. -/
def is_digit (ch : Char) : Bool :=
  '0' ≤ ch && ch ≤ '9'

/-- `\d*` until the end of the string. -/
def all_digits : List Char → Bool
  | [] => true
  | ch :: rest => is_digit ch && all_digits rest

/-- After the first season digit: more digits, then the optional
`e\d+` episode group, then the end of the string. -/
def match_digits_then_e : List Char → Bool
  | [] => true
  | 'e' :: rest => !rest.isEmpty && all_digits rest
  | ch :: rest => is_digit ch && match_digits_then_e rest

/-- The characters following the literal `s`: `\d+(?:e\d+)?$`. -/
def match_season_group : List Char → Bool
  | [] => false
  | ch :: rest => is_digit ch && match_digits_then_e rest

/-- The optional season/episode group followed by the end of the string:
`(?:s(?P<season>\d+)(?:e(?P<episode>\d+))?)?$`. -/
def match_opt_season : List Char → Bool
  | [] => true
  | 's' :: rest => match_season_group rest
  | _ => false

/-- After the leading `\s*`: the optional `\((?P<year>\d{4})\)` group,
then `\s*`, then the optional season group and the end of the string.
Both alternatives of the optional year group are tried, as the regex
engine backtracks. -/
def match_after_ws (cs : List Char) : Bool :=
  (match cs with
   | '(' :: d1 :: d2 :: d3 :: d4 :: ')' :: rest =>
     is_digit d1 && is_digit d2 && is_digit d3 && is_digit d4 &&
       match_opt_season (rest.dropWhile is_space)
   | _ => false)
  || match_opt_season (cs.dropWhile is_space)

/-- Everything after the non-greedy name capture:
`\s*((?:\((?P<year>\d{4})\))?\s*)(?:s\d+(?:e\d+)?)?$`.  The whitespace
runs are taken maximally, which loses no matches because no other piece of
the remainder can start with a whitespace character. -/
def match_remainder (cs : List Char) : Bool :=
  match_after_ws (cs.dropWhile is_space)

/-- `title_re.match(string)` as a success test: the name group `.*?`
consumes any characters except newline (Python `.`), trying shorter
prefixes first; the anchored regex matches iff some split lets the
remainder match. -/
def title_re_match : List Char → Bool
  | [] => match_remainder []
  | ch :: rest =>
    match_remainder (ch :: rest) || (ch ≠ '\n' && title_re_match rest)

/-- `Title.from_string` (`api.py` 74-90) at the success/failure level:
`InvalidTitle` is raised exactly when `title_re` fails to match; the group
extraction performed on a successful match cannot fail. -/
def from_string (s : String) : Except Unit Unit :=
  if title_re_match s.data then .ok () else .error ()

/-- C10 counterexample: `.` does not match a newline and `\s*` cannot
absorb the `b` after it, so `title_re` fails on `"a\nb"` and
`Title.from_string` raises `InvalidTitle` — the error branch is
reachable. -/
theorem from_string_newline_fails :
    from_string "a\nb" = .error () := by
  decide

theorem title_re_match_no_newline (cs : List Char)
    (h : '\n' ∉ cs) : title_re_match cs = true := by
  induction cs with
  | nil => rfl
  | cons ch rest ih =>
    have hch : ch ≠ '\n' := fun he => h (he ▸ List.mem_cons_self ch rest)
    have hr : title_re_match rest = true :=
      ih (fun hm => h (List.mem_cons_of_mem _ hm))
    unfold title_re_match
    rw [hr]
    simp [hch]

/-- C10 (amended): `Title.from_string` succeeds on every input string that
contains no newline — including the empty string, whose name capture is
empty — because the name group can always absorb the whole string; only
strings containing a newline can fail to match and raise `InvalidTitle`. -/
theorem from_string_total_without_newline (s : String)
    (h : '\n' ∉ s.data) : from_string s = .ok () := by
  unfold from_string
  rw [if_pos (title_re_match_no_newline s.data h)]

theorem from_string_total_witness :
    from_string "Game of Thrones (2011) s03e09" = .ok () :=
  from_string_total_without_newline "Game of Thrones (2011) s03e09"
    (by decide)

end Plexy
